import Mathlib

/-!
Verification of the RAG math-tutor backend.

Shallow embedding of the core algorithmic components of the backend:
the sliding-window rate limiter (`backend/rate_limiting.py`), input
validation and response sanitization (`backend/error_handling.py`), and
the retrieval / context-assembly / retry / answer pipeline
(`backend/rag_service_gemini.py`).

Modelling conventions:
- Python floats (timestamps, similarity scores) are modelled as `ℚ`.
- Python strings are modelled as `List Char` for the character-level
  functions (validation, sanitization, deduplication); `String` is used
  where the text is opaque.
- Stateful code (`AdvancedRateLimiter`) becomes explicit state passing:
  the `defaultdict(deque)` of timestamps is a total function
  `String → List ℚ` that is `[]` for unseen keys.
- External collaborators (Pinecone search results, the Gemini model
  call, the MD5 digest) are parameters of the functions that consume
  them; everything the repository itself computes is defined here.
-/

/-! ## Rate limiter (`backend/rate_limiting.py`) -/

/-- State of `AdvancedRateLimiter`: the `requests` dict mapping each
client key to its deque of request timestamps (front = oldest).
The `minute_counts` / `last_minute_reset` dicts are written nowhere
in the repository and are omitted. -/
structure RateLimiterState where
  requests : String → List ℚ

/-- A fresh `AdvancedRateLimiter()`: `defaultdict(lambda: deque())`. -/
def rlInit : RateLimiterState := ⟨fun _ => []⟩

/-- `AdvancedRateLimiter.is_allowed(ip, max_requests, window_seconds)`
at clock value `now` (`time.time()`).  The `while ... popleft()` eviction
loop drops timestamps from the front while the front is `< now - window`;
then the request is rejected if the retained count is at or above the
limit, else `now` is appended.  Returns the boolean result and the
updated state (eviction mutates the deque even on rejection). -/
def is_allowed (st : RateLimiterState) (ip : String) (now : ℚ)
    (max_requests : Nat) (window_seconds : ℚ) : Bool × RateLimiterState :=
  let q := (st.requests ip).dropWhile (fun t => decide (t < now - window_seconds))
  if max_requests ≤ q.length then
    (false, ⟨fun k => if k = ip then q else st.requests k⟩)
  else
    (true, ⟨fun k => if k = ip then q ++ [now] else st.requests k⟩)

/-- `AdvancedRateLimiter.get_reset_time(ip, window_seconds)` at clock
value `now`: the oldest stored timestamp plus the window, or `now` when
nothing is stored.  Note that it performs no eviction. -/
def get_reset_time (st : RateLimiterState) (ip : String)
    (window_seconds : ℚ) (now : ℚ) : ℚ :=
  match st.requests ip with
  | [] => now
  | oldest :: _ => oldest + window_seconds

/-- Effect of one `is_allowed` call on a single key's deque (the code of
`is_allowed` restricted to `self.requests[ip]`). -/
def stepDeque (now : ℚ) (max_requests : Nat) (window_seconds : ℚ)
    (q : List ℚ) : List ℚ :=
  let q' := q.dropWhile (fun t => decide (t < now - window_seconds))
  if max_requests ≤ q'.length then q' else q' ++ [now]

/-- A sequence of `is_allowed` calls for one key at the given clock
values, threaded through the limiter state. -/
def runCalls (ip : String) (max_requests : Nat) (window_seconds : ℚ)
    (times : List ℚ) (st : RateLimiterState) : RateLimiterState :=
  times.foldl (fun s now => (is_allowed s ip now max_requests window_seconds).2) st

lemma is_allowed_requests_self (st : RateLimiterState) (ip : String) (now : ℚ)
    (m : Nat) (w : ℚ) :
    ((is_allowed st ip now m w).2).requests ip = stepDeque now m w (st.requests ip) := by
  simp only [is_allowed, stepDeque]
  split <;> simp

lemma runCalls_requests (ip : String) (m : Nat) (w : ℚ) (times : List ℚ) :
    ∀ st : RateLimiterState,
      (runCalls ip m w times st).requests ip =
        times.foldl (fun q now => stepDeque now m w q) (st.requests ip) := by
  induction times with
  | nil => intro st; simp [runCalls]
  | cons t ts ih =>
      intro st
      simp only [runCalls, List.foldl_cons] at *
      rw [ih, is_allowed_requests_self]

lemma dropWhile_sublist_q (p : ℚ → Bool) (l : List ℚ) : List.Sublist (l.dropWhile p) l := by
  induction l with
  | nil => simp
  | cons a t ih =>
      by_cases h : p a
      · simp only [List.dropWhile_cons, h, if_true]
        exact ih.trans (List.sublist_cons_self a t)
      · simp [List.dropWhile_cons, h]

lemma is_allowed_fst (st : RateLimiterState) (ip : String) (now : ℚ)
    (m : Nat) (w : ℚ) :
    (is_allowed st ip now m w).1
      = !(decide (m ≤ (((st.requests ip).dropWhile (fun t => decide (t < now - w)))).length)) := by
  simp only [is_allowed]
  split <;> simp_all

lemma stepDeque_mem {now : ℚ} {m : Nat} {w : ℚ} {q : List ℚ} {x : ℚ}
    (hx : x ∈ stepDeque now m w q) : x ∈ q ∨ x = now := by
  simp only [stepDeque] at hx
  split at hx
  · exact Or.inl ((dropWhile_sublist_q _ q).mem hx)
  · rcases List.mem_append.mp hx with h | h
    · exact Or.inl ((dropWhile_sublist_q _ q).mem h)
    · exact Or.inr (List.mem_singleton.mp h)

lemma stepDeque_sorted {now : ℚ} {m : Nat} {w : ℚ} {q : List ℚ}
    (hq : q.Sorted (· ≤ ·)) (hb : ∀ x ∈ q, x ≤ now) :
    (stepDeque now m w q).Sorted (· ≤ ·) := by
  have hsub : List.Sublist (q.dropWhile (fun t => decide (t < now - w))) q := dropWhile_sublist_q _ q
  have hq' : (q.dropWhile (fun t => decide (t < now - w))).Sorted (· ≤ ·) :=
    hq.sublist hsub
  simp only [stepDeque]
  split
  · exact hq'
  · rw [List.Sorted, List.pairwise_append]
    refine ⟨hq', by simp, ?_⟩
    intro x hx y hy
    rw [List.mem_singleton] at hy
    subst hy
    exact hb x (hsub.mem hx)

lemma stepDeque_length {now : ℚ} {m : Nat} {w : ℚ} {q : List ℚ}
    (hq : q.length ≤ m) : (stepDeque now m w q).length ≤ m := by
  have hsub := (dropWhile_sublist_q (fun t => decide (t < now - w)) q).length_le
  simp only [stepDeque]
  split
  · omega
  · rename_i h
    simp only [List.length_append, List.length_singleton]
    omega

lemma foldl_stepDeque_inv (m : Nat) (w : ℚ) (times : List ℚ) :
    ∀ q : List ℚ, times.Sorted (· ≤ ·) → q.Sorted (· ≤ ·) → q.length ≤ m →
      (∀ x ∈ q, ∀ s ∈ times, x ≤ s) →
      (times.foldl (fun acc now => stepDeque now m w acc) q).Sorted (· ≤ ·) ∧
      (times.foldl (fun acc now => stepDeque now m w acc) q).length ≤ m := by
  induction times with
  | nil => intro q _ hqs hql _; exact ⟨hqs, hql⟩
  | cons t ts ih =>
      intro q hsort hqs hql hbound
      rw [List.sorted_cons] at hsort
      simp only [List.foldl_cons]
      apply ih
      · exact hsort.2
      · exact stepDeque_sorted hqs (fun x hx => hbound x hx t (List.mem_cons_self t ts))
      · exact stepDeque_length hql
      · intro x hx s hs
        rcases stepDeque_mem hx with h | h
        · exact hbound x h s (List.mem_cons_of_mem t hs)
        · subst h; exact hsort.1 s hs

/-- C10: after any sequence of `is_allowed` calls for a key with
non-decreasing clock values, starting from a fresh limiter, the stored
window for that key holds at most `max_requests` timestamps, in
non-decreasing order. -/
theorem c10_window_invariant (ip : String) (m : Nat) (w : ℚ) (times : List ℚ)
    (hts : times.Sorted (· ≤ ·)) :
    ((runCalls ip m w times rlInit).requests ip).length ≤ m ∧
    ((runCalls ip m w times rlInit).requests ip).Sorted (· ≤ ·) := by
  rw [runCalls_requests]
  have h := foldl_stepDeque_inv m w times [] hts (by simp) (by simp) (by simp)
  exact ⟨h.2, h.1⟩

/-- Witness for C10 at `times = [0, 1, 2]`, `max_requests = 2`. -/
theorem c10_window_invariant_witness :
    ((runCalls "k" 2 60 [0, 1, 2] rlInit).requests "k").length ≤ 2 ∧
    ((runCalls "k" 2 60 [0, 1, 2] rlInit).requests "k").Sorted (· ≤ ·) :=
  c10_window_invariant "k" 2 60 [0, 1, 2]
    (by norm_num [List.sorted_cons])

lemma stepDeque_nil (now : ℚ) (m : Nat) (w : ℚ) (hm : 1 ≤ m) :
    stepDeque now m w [] = [now] := by
  simp only [stepDeque, List.dropWhile_nil, List.length_nil]
  rw [if_neg (by omega)]
  simp

lemma dropWhile_window_id (now w : ℚ) (q : List ℚ)
    (h : ∀ x ∈ q, ¬ x < now - w) :
    q.dropWhile (fun t => decide (t < now - w)) = q := by
  cases q with
  | nil => simp
  | cons a t =>
      have := h a (List.mem_cons_self a t)
      simp [List.dropWhile_cons, this]

/-- C1: with `max_requests = 3`, `window_seconds = 60` and an empty
window for key `ip`, three consecutive `is_allowed` checks at the same
clock value `t` are allowed, a fourth at `t` is rejected and leaves the
stored window unchanged, and a later check at any `t' > t + 60` is
allowed again. -/
theorem c1_sliding_window_scenario (st : RateLimiterState) (ip : String)
    (t t' : ℚ) (hempty : st.requests ip = []) (hpast : t + 60 < t') :
    (is_allowed st ip t 3 60).1 = true ∧
    (is_allowed (is_allowed st ip t 3 60).2 ip t 3 60).1 = true ∧
    (is_allowed (is_allowed (is_allowed st ip t 3 60).2 ip t 3 60).2 ip t 3 60).1 = true ∧
    (is_allowed (is_allowed (is_allowed (is_allowed st ip t 3 60).2 ip t 3 60).2 ip t 3 60).2
       ip t 3 60).1 = false ∧
    ((is_allowed (is_allowed (is_allowed (is_allowed st ip t 3 60).2 ip t 3 60).2 ip t 3 60).2
       ip t 3 60).2).requests ip
      = ((is_allowed (is_allowed (is_allowed st ip t 3 60).2 ip t 3 60).2 ip t 3 60).2).requests ip ∧
    (is_allowed (is_allowed (is_allowed (is_allowed (is_allowed st ip t 3 60).2 ip t 3 60).2
       ip t 3 60).2 ip t 3 60).2 ip t' 3 60).1 = true := by
  have hlt : ¬ t < t - 60 := by linarith
  have hdrop1 : List.dropWhile (fun x => decide (x < t - 60)) [t] = [t] :=
    dropWhile_window_id t 60 [t] (by intro x hx; rw [List.mem_singleton] at hx; subst hx; exact hlt)
  have hdrop2 : List.dropWhile (fun x => decide (x < t - 60)) [t, t] = [t, t] :=
    dropWhile_window_id t 60 [t, t] (by intro x hx; simp at hx; subst hx; exact hlt)
  have hdrop3 : List.dropWhile (fun x => decide (x < t - 60)) [t, t, t] = [t, t, t] :=
    dropWhile_window_id t 60 [t, t, t] (by intro x hx; simp at hx; subst hx; exact hlt)
  have hgone : (t < t' - 60) := by linarith
  have hdrop5 : List.dropWhile (fun x => decide (x < t' - 60)) [t, t, t] = [] := by
    simp [List.dropWhile_cons, hgone]
  have hq1 : ((is_allowed st ip t 3 60).2).requests ip = [t] := by
    rw [is_allowed_requests_self, hempty, stepDeque_nil t 3 60 (by omega)]
  have hq2 : ((is_allowed (is_allowed st ip t 3 60).2 ip t 3 60).2).requests ip = [t, t] := by
    rw [is_allowed_requests_self, hq1]
    simp only [stepDeque, hdrop1, List.length_singleton]
    rw [if_neg (by omega)]
    rfl
  have hq3 : ((is_allowed (is_allowed (is_allowed st ip t 3 60).2 ip t 3 60).2
      ip t 3 60).2).requests ip = [t, t, t] := by
    rw [is_allowed_requests_self, hq2]
    simp only [stepDeque, hdrop2]
    rw [if_neg (by simp)]
    rfl
  have hq4 : ((is_allowed (is_allowed (is_allowed (is_allowed st ip t 3 60).2 ip t 3 60).2
      ip t 3 60).2 ip t 3 60).2).requests ip = [t, t, t] := by
    rw [is_allowed_requests_self, hq3]
    simp only [stepDeque, hdrop3]
    rw [if_pos (by simp)]
  refine ⟨?_, ?_, ?_, ?_, ?_, ?_⟩
  · rw [is_allowed_fst, hempty]; simp
  · rw [is_allowed_fst, hq1, hdrop1]; simp
  · rw [is_allowed_fst, hq2, hdrop2]; simp
  · rw [is_allowed_fst, hq3, hdrop3]; simp
  · rw [hq4, hq3]
  · rw [is_allowed_fst, hq4, hdrop5]; simp

/-- Witness for C1: fresh limiter, key `"k"`, checks at time `0` and a
final check at time `61`. -/
theorem c1_sliding_window_scenario_witness :
    (is_allowed rlInit "k" 0 3 60).1 = true ∧
    (is_allowed (is_allowed rlInit "k" 0 3 60).2 "k" 0 3 60).1 = true ∧
    (is_allowed (is_allowed (is_allowed rlInit "k" 0 3 60).2 "k" 0 3 60).2 "k" 0 3 60).1 = true ∧
    (is_allowed (is_allowed (is_allowed (is_allowed rlInit "k" 0 3 60).2 "k" 0 3 60).2
       "k" 0 3 60).2 "k" 0 3 60).1 = false ∧
    ((is_allowed (is_allowed (is_allowed (is_allowed rlInit "k" 0 3 60).2 "k" 0 3 60).2
       "k" 0 3 60).2 "k" 0 3 60).2).requests "k"
      = ((is_allowed (is_allowed (is_allowed rlInit "k" 0 3 60).2 "k" 0 3 60).2
       "k" 0 3 60).2).requests "k" ∧
    (is_allowed (is_allowed (is_allowed (is_allowed (is_allowed rlInit "k" 0 3 60).2
       "k" 0 3 60).2 "k" 0 3 60).2 "k" 0 3 60).2 "k" 61 3 60).1 = true :=
  c1_sliding_window_scenario rlInit "k" 0 61 rfl (by norm_num)

/-- Modelled from the claim wording for `resetTime`: evict aged-out
entries (those strictly older than `now - window`), then return the
oldest retained entry plus the window, or the current time when nothing
is retained. -/
def resetTimeClaimed (now window : ℚ) (ts : List ℚ) : ℚ :=
  match ts.filter (fun t => !(decide (t < now - window))) with
  | [] => now
  | oldest :: _ => oldest + window

lemma requests_after_first_call (ip : String) (t : ℚ) :
    ((is_allowed rlInit ip t 3 60).2).requests ip = [t] := by
  rw [is_allowed_requests_self]
  exact stepDeque_nil t 3 60 (by omega)

/-- C8 counterexample: one admitted request at time `0`, then
`get_reset_time` read at time `1000` with a 60-second window.  The code
returns `0 + 60 = 60` (no eviction on read), while the claimed
behaviour — evict aged-out entries, else return the current time —
gives `1000`. -/
theorem c8_reset_time_counterexample :
    get_reset_time (is_allowed rlInit "k" 0 3 60).2 "k" 60 1000 = 60 ∧
    resetTimeClaimed 1000 60 (((is_allowed rlInit "k" 0 3 60).2).requests "k") = 1000 ∧
    (60 : ℚ) ≠ 1000 := by
  have h := requests_after_first_call "k" 0
  refine ⟨?_, ?_, by norm_num⟩
  · rw [get_reset_time, h]
    norm_num
  · rw [h, resetTimeClaimed]
    norm_num

/-- C8 amended: `get_reset_time` performs no eviction.  It returns the
current time when the stored deque is empty, and otherwise the oldest
*stored* timestamp plus the window — which agrees with the claimed
evict-first value precisely on states whose (sorted) stored deque has
not aged out. -/
theorem c8_reset_time_amended (st : RateLimiterState) (ip : String)
    (window now : ℚ) :
    (st.requests ip = [] → get_reset_time st ip window now = now) ∧
    (∀ oldest rest, st.requests ip = oldest :: rest →
       get_reset_time st ip window now = oldest + window ∧
       ((st.requests ip).Sorted (· ≤ ·) → ¬ oldest < now - window →
          get_reset_time st ip window now
            = resetTimeClaimed now window (st.requests ip))) := by
  constructor
  · intro h
    rw [get_reset_time, h]
  · intro oldest rest hreq
    constructor
    · rw [get_reset_time, hreq]
    · intro hsorted hfresh
      rw [hreq] at hsorted ⊢
      rw [List.sorted_cons] at hsorted
      have hall : ∀ x ∈ oldest :: rest, ¬ x < now - window := by
        intro x hx
        rcases List.mem_cons.mp hx with h | h
        · subst h; exact hfresh
        · have := hsorted.1 x h
          intro hc; exact hfresh (by linarith)
      have hfilter : (oldest :: rest).filter (fun t => !(decide (t < now - window)))
          = oldest :: rest := by
        rw [List.filter_eq_self]
        intro a ha
        simp [hall a ha]
      rw [get_reset_time, resetTimeClaimed, hfilter, hreq]

/-- Witness for C8 amended: one request stored at time `5`, read at
time `10` with a 60-second window; both the code and the claimed
behaviour give `65`. -/
theorem c8_reset_time_amended_witness :
    get_reset_time (is_allowed rlInit "k" 5 3 60).2 "k" 60 10 = 5 + 60 ∧
    get_reset_time (is_allowed rlInit "k" 5 3 60).2 "k" 60 10
      = resetTimeClaimed 10 60 (((is_allowed rlInit "k" 5 3 60).2).requests "k") := by
  have hreq := requests_after_first_call "k" 5
  have h := (c8_reset_time_amended (is_allowed rlInit "k" 5 3 60).2 "k" 60 10).2 5 [] hreq
  refine ⟨h.1, h.2 ?_ ?_⟩
  · rw [hreq]; simp
  · norm_num

/-! ## Input validation (`backend/error_handling.py`) -/

/-- Whitespace as recognized by Python `str.strip()` / `str.split()`
(restricted to the ASCII range, which covers every character the
validation patterns can interact with). -/
def isPySpace (c : Char) : Bool :=
  c = ' ' ∨ c = '\t' ∨ c = '\n' ∨ c = '\x0d' ∨ c = '\x0b' ∨ c = '\x0c'

/-- Python `s.strip()` on a character list. -/
def pyStrip (cs : List Char) : List Char :=
  ((cs.dropWhile isPySpace).reverse.dropWhile isPySpace).reverse

/-- Helper for `pySplit`: accumulates the current word (reversed). -/
def pySplitAux : List Char → List Char → List (List Char)
  | [], acc => if acc.isEmpty then [] else [acc.reverse]
  | c :: t, acc =>
      if isPySpace c then
        if acc.isEmpty then pySplitAux t [] else acc.reverse :: pySplitAux t []
      else pySplitAux t (c :: acc)

/-- Python `s.split()` (no separator): maximal runs of non-whitespace,
no empty words. -/
def pySplit (cs : List Char) : List (List Char) := pySplitAux cs []

/-- Whether `pat` occurs as a contiguous substring of `cs`. -/
def containsSub (pat : List Char) : List Char → Bool
  | [] => pat.isEmpty
  | c :: t => pat.isPrefixOf (c :: t) || containsSub pat t

/-- Python `s.lower()` (ASCII case mapping, which covers the patterns). -/
def toLowerList (cs : List Char) : List Char := cs.map Char.toLower

/-- The `dangerous_patterns` list of `validate_input`. -/
def dangerous_patterns : List (List Char) :=
  ["<script".toList, "javascript:".toList, "data:".toList, "vbscript:".toList,
   "onload=".toList, "onerror=".toList, "onclick=".toList]

/-- `max(word_counts.values())` of `validate_input`: the highest number
of occurrences of any word. -/
def maxRep (ws : List (List Char)) : Nat :=
  (ws.map (fun w => ws.count w)).foldr max 0

/-- `validate_input(message)` from `backend/error_handling.py`,
with `raise ValidationError(msg)` modelled as `.error msg`.
The repetition test `max_repetition > len(words) * 0.5` compares an
integer against an exactly-representable float, so it is exactly
`len(words) < 2 * max_repetition`. -/
def validate_input (message : List Char) : Except String Unit :=
  if pyStrip message = [] then .error "Message cannot be empty"
  else if 2000 < message.length then
    .error "Message is too long. Please keep it under 2000 characters."
  else if dangerous_patterns.any (fun p => containsSub p (toLowerList message)) then
    .error "Message contains potentially harmful content"
  else if 10 < (pySplit message).length then
    if (pySplit message).length < 2 * maxRep (pySplit message) then
      .error "Message appears to contain excessive repetition"
    else .ok ()
  else .ok ()

/-- C5: `validate_input` succeeds exactly when the message is not
empty/whitespace-only, not over 2000 characters, contains none of the
unsafe patterns case-insensitively, and does not consist of more than
10 words with a single word making up over half of them; every other
message (in particular any of length 1-2000 clearing those tests)
validates. -/
theorem c5_validate_input_characterization (message : List Char) :
    validate_input message = .ok () ↔
      ¬(pyStrip message = [] ∨
        2000 < message.length ∨
        (∃ p ∈ dangerous_patterns, containsSub p (toLowerList message) = true) ∨
        (10 < (pySplit message).length ∧
          (pySplit message).length < 2 * maxRep (pySplit message))) := by
  unfold validate_input
  split_ifs with h1 h2 h3 h4 h5
  · exact iff_of_false (by simp) (fun hn => hn (Or.inl h1))
  · exact iff_of_false (by simp) (fun hn => hn (Or.inr (Or.inl h2)))
  · simp only [List.any_eq_true] at h3
    exact iff_of_false (by simp) (fun hn => hn (Or.inr (Or.inr (Or.inl h3))))
  · exact iff_of_false (by simp) (fun hn => hn (Or.inr (Or.inr (Or.inr ⟨h4, h5⟩))))
  · simp only [List.any_eq_true] at h3
    refine iff_of_true rfl ?_
    rintro (h | h | h | ⟨ha, hb⟩)
    · exact h1 h
    · exact h2 h
    · exact h3 (by obtain ⟨p, hp, hc⟩ := h; exact ⟨p, hp, hc⟩)
    · exact h5 hb
  · simp only [List.any_eq_true] at h3
    refine iff_of_true rfl ?_
    rintro (h | h | h | ⟨ha, hb⟩)
    · exact h1 h
    · exact h2 h
    · exact h3 (by obtain ⟨p, hp, hc⟩ := h; exact ⟨p, hp, hc⟩)
    · exact h4 ha

/-! ## Response sanitization (`backend/error_handling.py`) -/

/-- Case-insensitive prefix test (regex `re.IGNORECASE` on ASCII). -/
def isCIPrefix (pat cs : List Char) : Bool :=
  (pat.map Char.toLower).isPrefixOf (cs.map Char.toLower)

/-- Find the earliest case-insensitive occurrence of `</script>` and
return the suffix after it; `none` when there is no occurrence.  This is
the non-greedy `.*?</script>` part of the `re.sub` pattern (with
`re.DOTALL`, so any character may be skipped). -/
def findCloseAfter : List Char → Option (List Char)
  | [] => none
  | c :: t =>
      if isCIPrefix "</script>".toList (c :: t) then some (t.drop 8)
      else findCloseAfter t

lemma findCloseAfter_length : ∀ {cs r : List Char},
    findCloseAfter cs = some r → r.length < cs.length := by
  intro cs
  induction cs with
  | nil => intro r h; simp [findCloseAfter] at h
  | cons c t ih =>
      intro r h
      rw [findCloseAfter] at h
      split at h
      · cases h
        simp only [List.length_drop, List.length_cons]
        omega
      · exact Nat.lt_trans (ih h) (by simp)

/-- `re.sub(r'<script.*?</script>', '', response, flags=re.DOTALL |
re.IGNORECASE)`: scan left to right; at a case-insensitive `<script`,
remove through the earliest following `</script>` and continue after it;
a `<script` with no later close tag does not match. -/
def removeScriptTags : List Char → List Char
  | [] => []
  | c :: t =>
      if isCIPrefix "<script".toList (c :: t) then
        match h : findCloseAfter (t.drop 6) with
        | some after => removeScriptTags after
        | none => c :: removeScriptTags t
      else c :: removeScriptTags t
termination_by cs => cs.length
decreasing_by
  · have h1 := findCloseAfter_length h
    have h2 : (t.drop 6).length ≤ t.length := by simp [List.length_drop]
    simp only [List.length_cons]
    omega
  · simp
  · simp

/-- `re.sub(pat, '', s, flags=re.IGNORECASE)` for a fixed non-empty
literal pattern (used with `javascript:` and `data:`): remove every
case-insensitive occurrence, scanning left to right. -/
def removePat (pat : List Char) : List Char → List Char
  | [] => []
  | c :: t =>
      if isCIPrefix pat (c :: t) then removePat pat (t.drop (pat.length - 1))
      else c :: removePat pat t
termination_by cs => cs.length
decreasing_by
  · simp only [List.length_cons, List.length_drop]
    omega
  · simp

/-- The length-limiting step of `sanitize_response`: when the text
exceeds 5000 characters, keep the first 5000 and append `"..."`. -/
def truncateEllipsis (cs : List Char) : List Char :=
  if 5000 < cs.length then cs.take 5000 ++ "...".toList else cs

/-- `sanitize_response(response)` from `backend/error_handling.py`:
remove script-tag spans, then `javascript:` occurrences, then `data:`
occurrences, truncate to 5000 characters with an appended `"..."` when
longer, then `str.strip()` — the successive reassignments of `response`
composed in order. -/
def sanitize_response (response : List Char) : List Char :=
  pyStrip (truncateEllipsis
    (removePat "data:".toList (removePat "javascript:".toList (removeScriptTags response))))

lemma dropWhileSublist {α : Type} (p : α → Bool) (l : List α) :
    List.Sublist (l.dropWhile p) l := by
  induction l with
  | nil => simp
  | cons a t ih =>
      by_cases h : p a
      · simp only [List.dropWhile_cons, h, if_true]
        exact ih.trans (List.sublist_cons_self a t)
      · simp [List.dropWhile_cons, h]

lemma dropWhile_all_false {α : Type} (p : α → Bool) (cs : List α)
    (h : ∀ c ∈ cs, p c = false) : cs.dropWhile p = cs := by
  cases cs with
  | nil => simp
  | cons a t => simp [List.dropWhile_cons, h a (List.mem_cons_self a t)]

lemma pyStrip_no_space (cs : List Char) (h : ∀ c ∈ cs, isPySpace c = false) :
    pyStrip cs = cs := by
  unfold pyStrip
  rw [dropWhile_all_false _ _ h, dropWhile_all_false, List.reverse_reverse]
  intro c hc
  exact h c (List.mem_reverse.mp hc)

lemma pyStrip_length_le (cs : List Char) : (pyStrip cs).length ≤ cs.length := by
  unfold pyStrip
  have h1 := (dropWhileSublist isPySpace cs).length_le
  have h2 := (dropWhileSublist isPySpace (cs.dropWhile isPySpace).reverse).length_le
  simp only [List.length_reverse] at *
  omega

lemma isCIPrefix_cons_false (p0 : Char) (pr : List Char) (c : Char) (t : List Char)
    (h : Char.toLower c ≠ Char.toLower p0) :
    isCIPrefix (p0 :: pr) (c :: t) = false := by
  simp [isCIPrefix, List.isPrefixOf]
  intro heq
  exact absurd heq (fun hh => h hh.symm)

lemma removeScriptTags_step (c : Char) (t after : List Char)
    (hpre : isCIPrefix "<script".toList (c :: t) = true)
    (hclose : findCloseAfter (t.drop 6) = some after) :
    removeScriptTags (c :: t) = removeScriptTags after := by
  rw [removeScriptTags.eq_2, hpre]
  simp only [if_true]
  split
  · rename_i a ha
    rw [hclose] at ha
    cases ha
    rfl
  · rename_i ha
    rw [hclose] at ha
    cases ha

lemma removeScriptTags_id (cs : List Char)
    (h : ∀ c ∈ cs, Char.toLower c ≠ '<') : removeScriptTags cs = cs := by
  induction cs with
  | nil => rw [removeScriptTags.eq_1]
  | cons c t ih =>
      have hc : isCIPrefix "<script".toList (c :: t) = false := by
        rw [show ("<script".toList : List Char) = '<' :: "script".toList from rfl]
        exact isCIPrefix_cons_false _ _ _ _
          (by rw [show Char.toLower '<' = '<' from rfl]; exact h c (List.mem_cons_self c t))
      rw [removeScriptTags.eq_2, hc]
      simp only [Bool.false_eq_true, if_false, List.cons.injEq, true_and]
      exact ih (fun x hx => h x (List.mem_cons_of_mem c hx))

lemma removePat_id (p0 : Char) (pr : List Char) (cs : List Char)
    (h : ∀ c ∈ cs, Char.toLower c ≠ Char.toLower p0) :
    removePat (p0 :: pr) cs = cs := by
  induction cs with
  | nil => rw [removePat.eq_1]
  | cons c t ih =>
      rw [removePat.eq_2, isCIPrefix_cons_false p0 pr c t (h c (List.mem_cons_self c t))]
      simp only [Bool.false_eq_true, if_false, List.cons.injEq, true_and]
      exact ih (fun x hx => h x (List.mem_cons_of_mem c hx))

/-- C4: `sanitize_response` strips script-tag spans and the
`javascript:` / `data:` prefixes case-insensitively, truncates over-long
text to 5000 characters plus `"..."`, trims, and is total.  Concretely:
`<script>alert(1)</script>Hello` becomes `Hello`, a 6000-character
input becomes exactly the first 5000 characters followed by `"..."`
(5003 characters), and no output ever exceeds 5003 characters. -/
theorem c4_sanitize_response :
    sanitize_response ("<script>alert(1)</script>Hello".toList) = "Hello".toList ∧
    sanitize_response (List.replicate 6000 'a')
      = List.replicate 5000 'a' ++ "...".toList ∧
    (List.replicate 5000 'a' ++ "...".toList).length = 5003 ∧
    (∀ s : List Char, (sanitize_response s).length ≤ 5003) := by
  have hjs : ("javascript:".toList : List Char) = 'j' :: "avascript:".toList := rfl
  have hdata : ("data:".toList : List Char) = 'd' :: "ata:".toList := rfl
  have hdots : ("...".toList : List Char).length = 3 := rfl
  refine ⟨?_, ?_, by rw [List.length_append, List.length_replicate, hdots], ?_⟩
  · have h1 : removeScriptTags ("<script>alert(1)</script>Hello".toList)
        = removeScriptTags ("Hello".toList) := by
      apply removeScriptTags_step
      · decide
      · decide
    have h2 : removeScriptTags ("Hello".toList) = "Hello".toList :=
      removeScriptTags_id _ (by decide)
    unfold sanitize_response
    rw [h1, h2, hjs, removePat_id _ _ _ (by decide), hdata, removePat_id _ _ _ (by decide)]
    rw [truncateEllipsis, if_neg (by decide)]
    exact pyStrip_no_space _ (by decide)
  · have hmem : ∀ c ∈ List.replicate 6000 'a', c = 'a' := by
      intro c hc; exact (List.mem_replicate.mp hc).2
    unfold sanitize_response
    rw [removeScriptTags_id _ (by intro c hc; rw [hmem c hc]; decide),
        hjs, removePat_id _ _ _ (by intro c hc; rw [hmem c hc]; decide),
        hdata, removePat_id _ _ _ (by intro c hc; rw [hmem c hc]; decide)]
    rw [truncateEllipsis, if_pos (by rw [List.length_replicate]; omega), List.take_replicate]
    rw [show min 5000 6000 = 5000 from rfl]
    apply pyStrip_no_space
    intro c hc
    rcases List.mem_append.mp hc with h | h
    · rw [(List.mem_replicate.mp h).2]; decide
    · have : c = '.' := by simpa using h
      rw [this]; decide
  · intro s
    unfold sanitize_response
    refine le_trans (pyStrip_length_le _) ?_
    rw [truncateEllipsis]
    split
    · rename_i hlen
      simp only [List.length_append, List.length_take, hdots]
      omega
    · rename_i hlen
      omega

/-! ## Retrieval and context assembly (`backend/rag_service_gemini.py`) -/

/-- `settings.similarity_threshold` from `backend/config.py`. -/
def similarity_threshold : ℚ := 7/10

/-- `settings.vector_dimension` from `backend/config.py`. -/
def vector_dimension : Nat := 384

/-- The filtering half of `GeminiRAGService._get_relevant_context`:
given the store's match list `ms` (each match's `metadata['text']`
paired with its `score`, in the store's ranking order), keep exactly
those whose score is at least `settings.similarity_threshold`,
preserving order, and return the surviving documents and scores.  The
Pinecone search itself is the external collaborator producing `ms`. -/
def get_relevant_context (ms : List (String × ℚ)) : List String × List ℚ :=
  let filtered := ms.filter (fun m => decide (similarity_threshold ≤ m.2))
  (filtered.map Prod.fst, filtered.map Prod.snd)

/-- C6: retrieval never returns a passage scoring below the configured
similarity threshold, survivors keep the store's original order
(a sublist of the ranked input, not re-sorted), and on scores
`[0.9, 0.65, 0.71]` with threshold `0.7` exactly the `0.9` and `0.71`
entries survive, in that order. -/
theorem c6_retrieval_threshold_filter :
    (∀ ms : List (String × ℚ), ∀ s ∈ (get_relevant_context ms).2,
        similarity_threshold ≤ s) ∧
    (∀ ms : List (String × ℚ),
        List.Sublist (get_relevant_context ms).1 (ms.map Prod.fst)) ∧
    (∀ d1 d2 d3 : String,
        get_relevant_context [(d1, 9/10), (d2, 65/100), (d3, 71/100)]
          = ([d1, d3], [9/10, 71/100])) := by
  refine ⟨?_, ?_, ?_⟩
  · intro ms s hs
    simp only [get_relevant_context, List.mem_map] at hs
    obtain ⟨m, hm, hms⟩ := hs
    have := (List.mem_filter.mp hm).2
    rw [← hms]
    exact of_decide_eq_true this
  · intro ms
    exact ((List.filter_sublist ms).map Prod.fst)
  · intro d1 d2 d3
    simp only [get_relevant_context, List.filter]
    norm_num [similarity_threshold]

/-- Witness for C6 at a concrete match list (the claim's example). -/
theorem c6_retrieval_threshold_filter_witness :
    similarity_threshold ≤ 9/10 ∧
    get_relevant_context [("a", 9/10), ("b", 65/100), ("c", 71/100)]
      = (["a", "c"], [9/10, 71/100]) := by
  refine ⟨?_, c6_retrieval_threshold_filter.2.2 "a" "b" "c"⟩
  exact c6_retrieval_threshold_filter.1 [("a", 9/10)] (9/10)
    (by norm_num [get_relevant_context, List.filter, similarity_threshold])

/-- The deduplication loop of `GeminiRAGService._construct_enhanced_prompt`:
`seen_content` is the set of already-seen 50-character prefixes
(`chunk[:50]`); the first chunk with a given prefix is kept, later ones
are dropped, in insertion order. -/
def dedupAux : List (List Char) → List (List Char) → List (List Char)
  | [], _ => []
  | c :: t, seen =>
      if c.take 50 ∈ seen then dedupAux t seen
      else c :: dedupAux t (c.take 50 :: seen)

/-- `unique_context` as built by `_construct_enhanced_prompt`. -/
def uniqueContext (context_chunks : List (List Char)) : List (List Char) :=
  dedupAux context_chunks []

/-- `context = "\n\n".join(unique_context)`. -/
def contextBlock (context_chunks : List (List Char)) : List Char :=
  List.intercalate "\n\n".toList (uniqueContext context_chunks)

lemma dedupAux_sublist :
    ∀ (chunks seen : List (List Char)), List.Sublist (dedupAux chunks seen) chunks := by
  intro chunks
  induction chunks with
  | nil => intro seen; simp [dedupAux]
  | cons c t ih =>
      intro seen
      rw [dedupAux]
      split
      · exact (ih seen).trans (List.sublist_cons_self c t)
      · exact (ih (c.take 50 :: seen)).cons₂ c

lemma dedupAux_key_not_seen :
    ∀ (chunks seen : List (List Char)) (d : List Char),
      d ∈ dedupAux chunks seen → d.take 50 ∉ seen := by
  intro chunks
  induction chunks with
  | nil => intro seen d hd; simp [dedupAux] at hd
  | cons c t ih =>
      intro seen d hd
      rw [dedupAux] at hd
      split at hd
      · exact ih seen d hd
      · rcases List.mem_cons.mp hd with h | h
        · subst h; assumption
        · intro hmem
          exact ih _ d h (List.mem_cons_of_mem _ hmem)

lemma dedupAux_nodup_keys :
    ∀ (chunks seen : List (List Char)),
      ((dedupAux chunks seen).map (fun c => c.take 50)).Nodup := by
  intro chunks
  induction chunks with
  | nil => intro seen; simp [dedupAux]
  | cons c t ih =>
      intro seen
      rw [dedupAux]
      split
      · exact ih seen
      · simp only [List.map_cons, List.nodup_cons]
        refine ⟨?_, ih _⟩
        intro hmem
        obtain ⟨d, hd, hkey⟩ := List.mem_map.mp hmem
        exact dedupAux_key_not_seen t _ d hd (hkey ▸ List.mem_cons_self _ _)

lemma dedupAux_complete :
    ∀ (chunks seen : List (List Char)) (c : List Char),
      c ∈ chunks → c.take 50 ∉ seen →
      ∃ d ∈ dedupAux chunks seen, d.take 50 = c.take 50 := by
  intro chunks
  induction chunks with
  | nil => intro seen c hc; simp at hc
  | cons c0 t ih =>
      intro seen c hc hseen
      rw [dedupAux]
      split
      · rename_i hin
        rcases List.mem_cons.mp hc with h | h
        · subst h; exact absurd hin hseen
        · exact ih seen c h hseen
      · rename_i hin
        rcases List.mem_cons.mp hc with h | h
        · subst h
          exact ⟨c, List.mem_cons_self _ _, rfl⟩
        · by_cases hk : c.take 50 = c0.take 50
          · exact ⟨c0, List.mem_cons_self _ _, hk.symm⟩
          · obtain ⟨d, hd, hkey⟩ := ih (c0.take 50 :: seen) c h
              (by simp [hseen, hk])
            exact ⟨d, List.mem_cons_of_mem _ hd, hkey⟩

lemma dedupAux_first :
    ∀ (chunks seen : List (List Char)) (d : List Char),
      d ∈ dedupAux chunks seen →
      chunks.find? (fun x => decide (x.take 50 = d.take 50)) = some d := by
  intro chunks
  induction chunks with
  | nil => intro seen d hd; simp [dedupAux] at hd
  | cons c0 t ih =>
      intro seen d hd
      rw [dedupAux] at hd
      split at hd
      · rename_i hin
        have hne : ¬ (c0.take 50 = d.take 50) := by
          intro he
          exact dedupAux_key_not_seen t seen d hd (he ▸ hin)
        rw [List.find?_cons_of_neg _ (by simpa using hne)]
        exact ih seen d hd
      · rename_i hin
        rcases List.mem_cons.mp hd with h | h
        · subst h
          exact List.find?_cons_of_pos _ (by simp)
        · have hnotin := dedupAux_key_not_seen t _ d h
          have hne : ¬ (c0.take 50 = d.take 50) := by
            intro he
            exact hnotin (he ▸ List.mem_cons_self _ _)
          rw [List.find?_cons_of_neg _ (by simpa using hne)]
          exact ih _ d h

/-- C7: context assembly keeps, per distinct 50-character prefix,
exactly the first chunk having that prefix (the survivor list is a
sublist of the input in insertion order, its prefixes are pairwise
distinct, every input prefix is represented, and each survivor is the
first input chunk with its prefix), and the surviving chunks are joined
with a blank-line separator.  On chunks whose first two share a
50-character prefix, exactly the first and the third survive. -/
theorem c7_context_dedup :
    (∀ chunks : List (List Char), List.Sublist (uniqueContext chunks) chunks) ∧
    (∀ chunks : List (List Char),
        ((uniqueContext chunks).map (fun c => c.take 50)).Nodup) ∧
    (∀ (chunks : List (List Char)) (c : List Char), c ∈ chunks →
        ∃ d ∈ uniqueContext chunks, d.take 50 = c.take 50) ∧
    (∀ (chunks : List (List Char)) (d : List Char), d ∈ uniqueContext chunks →
        chunks.find? (fun x => decide (x.take 50 = d.take 50)) = some d) ∧
    (uniqueContext [List.replicate 50 'p' ++ "1".toList,
        List.replicate 50 'p' ++ "2".toList, "other".toList]
      = [List.replicate 50 'p' ++ "1".toList, "other".toList] ∧
     contextBlock [List.replicate 50 'p' ++ "1".toList,
        List.replicate 50 'p' ++ "2".toList, "other".toList]
      = (List.replicate 50 'p' ++ "1".toList) ++ "\n\n".toList ++ "other".toList) := by
  refine ⟨fun chunks => dedupAux_sublist chunks [],
          fun chunks => dedupAux_nodup_keys chunks [],
          fun chunks c hc => dedupAux_complete chunks [] c hc (by simp),
          fun chunks d hd => dedupAux_first chunks [] d hd,
          by decide, by decide⟩

/-- Witness for C7: on the example chunks, the first chunk's prefix is
represented among the survivors and the second chunk resolves to the
first as its first-seen representative. -/
theorem c7_context_dedup_witness :
    (∃ d ∈ uniqueContext [List.replicate 50 'p' ++ "1".toList,
        List.replicate 50 'p' ++ "2".toList, "other".toList],
      d.take 50 = (List.replicate 50 'p' ++ "2".toList).take 50) ∧
    [List.replicate 50 'p' ++ "1".toList, List.replicate 50 'p' ++ "2".toList,
        "other".toList].find?
      (fun x => decide (x.take 50 = ("other".toList : List Char).take 50))
      = some "other".toList := by
  constructor
  · exact c7_context_dedup.2.2.1 _ _ (by decide)
  · exact c7_context_dedup.2.2.2.1 _ "other".toList (by decide)

/-! ## Embedding producer (`GeminiRAGService._get_free_embedding`) -/

/-- `int(s, 16)` on a single hex digit. -/
def hexVal? (c : Char) : Option Nat :=
  if '0' ≤ c ∧ c ≤ '9' then some (c.toNat - '0'.toNat)
  else if 'a' ≤ c ∧ c ≤ 'f' then some (c.toNat - 'a'.toNat + 10)
  else if 'A' ≤ c ∧ c ≤ 'F' then some (c.toNat - 'A'.toNat + 10)
  else none

/-- The digest-scanning loop: `for i in range(0, len(text_hash), 2)`
turns each two-character slice (one character at an odd tail) into
`int(slice, 16) / 255.0`.  A non-hex character raises, which the
enclosing `try` turns into the zero-vector fallback, so the whole parse
is `Option`-valued. -/
def parsePairs : List Char → Option (List ℚ)
  | [] => some []
  | [c] => (hexVal? c).map (fun v => [(v : ℚ) / 255])
  | c1 :: c2 :: t =>
      match hexVal? c1, hexVal? c2, parsePairs t with
      | some v1, some v2, some rest => some (((16 * v1 + v2 : ℕ) : ℚ) / 255 :: rest)
      | _, _, _ => none

/-- `while len(embedding) < 384: append 0.0` followed by
`embedding[:384]`. -/
def padTo384 (vals : List ℚ) : List ℚ :=
  (vals ++ List.replicate (384 - vals.length) 0).take 384

/-- `_get_free_embedding` applied to the hex digest of the input text;
any parse error falls back to the all-zero 384-vector. -/
def get_free_embedding (md5_hexdigest : List Char) : List ℚ :=
  match parsePairs md5_hexdigest with
  | some vals => padTo384 vals
  | none => List.replicate 384 0

/-- `GeminiRAGService._get_free_embedding(text)`: `hashlib.md5` is the
external deterministic digest, passed as a function parameter. -/
def embed (md5hex : String → List Char) (text : String) : List ℚ :=
  get_free_embedding (md5hex text)

/-- C9: the embedding is a pure function of the input text (repeated
calls agree), every returned vector — including the error fallback —
has exactly the configured dimension 384, and a failed digest parse
returns the all-zero vector of that dimension. -/
theorem c9_embedding_deterministic_dimension :
    (∀ (md5hex : String → List Char) (x : String),
        embed md5hex x = embed md5hex x) ∧
    (∀ (md5hex : String → List Char) (x : String),
        (embed md5hex x).length = vector_dimension) ∧
    (∀ ds : List Char, (get_free_embedding ds).length = vector_dimension) ∧
    (∀ ds : List Char, parsePairs ds = none →
        get_free_embedding ds = List.replicate vector_dimension 0) := by
  have hlen : ∀ ds : List Char, (get_free_embedding ds).length = vector_dimension := by
    intro ds
    unfold get_free_embedding
    split
    · unfold padTo384 vector_dimension
      simp only [List.length_take, List.length_append, List.length_replicate]
      omega
    · rw [List.length_replicate]; rfl
  refine ⟨fun _ _ => rfl, fun md5hex x => hlen (md5hex x), hlen, ?_⟩
  intro ds hnone
  unfold get_free_embedding
  rw [hnone]
  rfl

/-- Witness for C9: the digest `"zz"` fails to parse and yields the
zero vector; a genuine hex digest prefix also has dimension 384. -/
theorem c9_embedding_witness :
    get_free_embedding "zz".toList = List.replicate vector_dimension 0 ∧
    (get_free_embedding "d41d8cd98f00b204e9800998ecf8427e".toList).length
      = vector_dimension := by
  constructor
  · exact c9_embedding_deterministic_dimension.2.2.2 "zz".toList (by decide)
  · exact c9_embedding_deterministic_dimension.2.2.1 _

/-! ## Generation client with retry (`GeminiRAGService._call_gemini_with_retry`) -/

/-- Outcome of `_call_gemini_with_retry`: return of `response.text`,
`raise RAGError(...)` after the last attempt, or the implicit `None`
fall-through when the loop body never runs (`max_retries = 0`). -/
inductive RetryOutcome where
  | success (text : String)
  | failure (lastErr : String)
  | fellThrough
deriving DecidableEq

/-- Observable behaviour of one `_call_gemini_with_retry` run: its
outcome, how many model calls were made, and the `time.sleep` durations
in order (`2 ** attempt` after each failed non-final attempt). -/
structure RetryResult where
  outcome : RetryOutcome
  attempts : Nat
  sleeps : List Nat
deriving DecidableEq

/-- The `for attempt in range(max_retries)` loop, entered at `attempt`.
The model call is the external collaborator `call`, giving each
attempt's `response.text` or raised error message. -/
def retryGo (call : Nat → Except String String) (mr : Nat) (attempt : Nat) :
    RetryResult :=
  if h : attempt < mr then
    match call attempt with
    | .ok t => ⟨.success t, 1, []⟩
    | .error e =>
        if attempt = mr - 1 then ⟨.failure e, 1, []⟩
        else
          let r := retryGo call mr (attempt + 1)
          ⟨r.outcome, r.attempts + 1, 2 ^ attempt :: r.sleeps⟩
  else ⟨.fellThrough, 0, []⟩
termination_by mr - attempt
decreasing_by omega

/-- `_call_gemini_with_retry(prompt, max_retries)`: run the loop from
attempt 0. -/
def call_gemini_with_retry (call : Nat → Except String String)
    (mr : Nat := 3) : RetryResult :=
  retryGo call mr 0

lemma retryGo_all_fail (call : Nat → Except String String) (mr : Nat) :
    ∀ d attempt, mr - attempt = d → attempt < mr →
      (∀ i, attempt ≤ i → i < mr → ∃ e, call i = .error e) →
      (retryGo call mr attempt).attempts = mr - attempt ∧
      (retryGo call mr attempt).sleeps
        = (List.range (mr - attempt - 1)).map (fun j => 2 ^ (attempt + j)) ∧
      (∀ e, call (mr - 1) = .error e →
        (retryGo call mr attempt).outcome = .failure e) := by
  intro d
  induction d with
  | zero => intro attempt hd hlt; omega
  | succ n ih =>
      intro attempt hd hlt hfail
      obtain ⟨e, he⟩ := hfail attempt le_rfl hlt
      rw [retryGo.eq_def, dif_pos hlt, he]
      dsimp only
      by_cases hlast : attempt = mr - 1
      · rw [if_pos hlast]
        refine ⟨by simp; omega, by rw [show mr - attempt - 1 = 0 by omega]; simp, ?_⟩
        intro e' he'
        rw [← hlast, he] at he'
        cases he'
        rfl
      · rw [if_neg hlast]
        have ih' := ih (attempt + 1) (by omega) (by omega)
          (fun i hi1 hi2 => hfail i (by omega) hi2)
        refine ⟨?_, ?_, ?_⟩
        · show (retryGo call mr (attempt + 1)).attempts + 1 = mr - attempt
          rw [ih'.1]
          omega
        · show 2 ^ attempt :: (retryGo call mr (attempt + 1)).sleeps
            = (List.range (mr - attempt - 1)).map (fun j => 2 ^ (attempt + j))
          rw [ih'.2.1, show mr - attempt - 1 = (mr - (attempt + 1) - 1) + 1 by omega,
              List.range_succ_eq_map, List.map_cons, List.map_map]
          refine congrArg₂ _ (by rw [Nat.add_zero]) ?_
          apply List.map_congr_left
          intro j _
          show 2 ^ (attempt + 1 + j) = 2 ^ (attempt + Nat.succ j)
          rw [show attempt + 1 + j = attempt + Nat.succ j by omega]
        · intro e' he'
          show (retryGo call mr (attempt + 1)).outcome = .failure e'
          exact ih'.2.2 e' he'

lemma retryGo_success (call : Nat → Except String String) (mr : Nat) :
    ∀ d attempt k t, mr - attempt = d → attempt ≤ k → k < mr →
      call k = .ok t →
      (∀ i, attempt ≤ i → i < k → ∃ e, call i = .error e) →
      (retryGo call mr attempt).outcome = .success t ∧
      (retryGo call mr attempt).attempts = k + 1 - attempt ∧
      (retryGo call mr attempt).sleeps
        = (List.range (k - attempt)).map (fun j => 2 ^ (attempt + j)) := by
  intro d
  induction d with
  | zero => intro attempt k t hd hak hkm; omega
  | succ n ih =>
      intro attempt k t hd hak hkm hok hfail
      have hlt : attempt < mr := by omega
      by_cases heq : attempt = k
      · subst heq
        rw [retryGo.eq_def, dif_pos hlt, hok]
        dsimp only
        refine ⟨rfl, by simp, by simp⟩
      · obtain ⟨e, he⟩ := hfail attempt le_rfl (by omega)
        have hlast : attempt ≠ mr - 1 := by omega
        rw [retryGo.eq_def, dif_pos hlt, he]
        dsimp only
        rw [if_neg hlast]
        have ih' := ih (attempt + 1) k t (by omega) (by omega) hkm hok
          (fun i hi1 hi2 => hfail i (by omega) hi2)
        refine ⟨ih'.1, ?_, ?_⟩
        · show (retryGo call mr (attempt + 1)).attempts + 1 = k + 1 - attempt
          rw [ih'.2.1]
          omega
        · show 2 ^ attempt :: (retryGo call mr (attempt + 1)).sleeps
            = (List.range (k - attempt)).map (fun j => 2 ^ (attempt + j))
          rw [ih'.2.2, show k - attempt = (k - (attempt + 1)) + 1 by omega,
              List.range_succ_eq_map, List.map_cons, List.map_map]
          refine congrArg₂ _ (by rw [Nat.add_zero]) ?_
          apply List.map_congr_left
          intro j _
          show 2 ^ (attempt + 1 + j) = 2 ^ (attempt + Nat.succ j)
          rw [show attempt + 1 + j = attempt + Nat.succ j by omega]

/-- C2: with at least one attempt allowed, if every attempt fails then
`_call_gemini_with_retry` makes exactly `max_retries` calls, sleeps
`2^attempt` after each failed attempt except the last (so sleeps
`[2^0, ..., 2^(max_retries-2)]` in order), and raises the wrapping
error carrying the last attempt's failure; while if attempt `k` is the
first to succeed it returns that attempt's raw text after exactly
`k + 1` calls with sleeps `[2^0, ..., 2^(k-1)]`. -/
theorem c2_retry_policy (call : Nat → Except String String) (mr : Nat)
    (hmr : 1 ≤ mr) :
    ((∀ i, i < mr → ∃ e, call i = .error e) →
        (call_gemini_with_retry call mr).attempts = mr ∧
        (call_gemini_with_retry call mr).sleeps
          = (List.range (mr - 1)).map (fun i => 2 ^ i) ∧
        (∀ e, call (mr - 1) = .error e →
          (call_gemini_with_retry call mr).outcome = .failure e)) ∧
    (∀ k t, k < mr → call k = .ok t → (∀ i, i < k → ∃ e, call i = .error e) →
        (call_gemini_with_retry call mr).outcome = .success t ∧
        (call_gemini_with_retry call mr).attempts = k + 1 ∧
        (call_gemini_with_retry call mr).sleeps
          = (List.range k).map (fun i => 2 ^ i)) := by
  have hzero : ∀ m : Nat, ((List.range m).map (fun j => 2 ^ (0 + j)))
      = (List.range m).map (fun i : Nat => 2 ^ i) := by
    intro m
    apply List.map_congr_left
    intro j _
    rw [Nat.zero_add]
  constructor
  · intro hfail
    have h := retryGo_all_fail call mr mr 0 (by omega) (by omega)
      (fun i _ hi => hfail i hi)
    refine ⟨?_, ?_, ?_⟩
    · rw [call_gemini_with_retry, h.1]; omega
    · rw [call_gemini_with_retry, h.2.1, show mr - 0 - 1 = mr - 1 by omega, hzero]
    · intro e he
      rw [call_gemini_with_retry]
      exact h.2.2 e he
  · intro k t hk hok hfail
    have h := retryGo_success call mr mr 0 k t (by omega) (by omega) hk hok
      (fun i _ hi => hfail i hi)
    refine ⟨?_, ?_, ?_⟩
    · rw [call_gemini_with_retry]; exact h.1
    · rw [call_gemini_with_retry, h.2.1]; omega
    · rw [call_gemini_with_retry, h.2.2, show k - 0 = k by omega, hzero]

/-- Witness for C2: an oracle failing on attempts 0 and 1 and succeeding
on attempt 2, with `max_retries = 3`, and an always-failing oracle. -/
theorem c2_retry_policy_witness :
    (call_gemini_with_retry (fun _ => .error "boom") 3).attempts = 3 ∧
    (call_gemini_with_retry (fun _ => .error "boom") 3).sleeps = [1, 2] ∧
    (call_gemini_with_retry (fun _ => .error "boom") 3).outcome = .failure "boom" ∧
    (call_gemini_with_retry (fun i => if i < 2 then .error "flaky" else .ok "answer") 3).outcome
      = .success "answer" ∧
    (call_gemini_with_retry (fun i => if i < 2 then .error "flaky" else .ok "answer") 3).attempts
      = 3 := by
  have h1 := c2_retry_policy (fun _ => .error "boom") 3 (by omega)
  have hall : ∀ i, i < 3 → ∃ e, (fun _ : Nat => (.error "boom" : Except String String)) i = .error e :=
    fun i _ => ⟨"boom", rfl⟩
  have ha := h1.1 hall
  have h2 := c2_retry_policy (fun i => if i < 2 then .error "flaky" else .ok "answer") 3 (by omega)
  have hb := h2.2 2 "answer" (by omega) (by norm_num)
    (fun i hi => ⟨"flaky", by simp [hi]⟩)
  exact ⟨ha.1, by rw [ha.2.1]; rfl, ha.2.2 "boom" rfl, hb.1, hb.2.1⟩

/-! ## Answer pipeline (`GeminiRAGService.generate_response`) -/

/-- The fixed message returned when no context chunk survives
retrieval. -/
def noInfoMessage : String :=
  "I couldn\x27t find relevant information in the Mathematics textbook to answer your question accurately. Please try rephrasing your question or ask about a different math topic."

/-- The prompt template text before the `{context}` interpolation. -/
def promptHeader : String :=
  "You are a math tutor. Answer clearly and concisely with clean formatting.\n\nTEXTBOOK CONTENT (from Mathematics.pdf):\n"

/-- The template text between `{context}` and `{query}`. -/
def promptQuestionLabel : String :=
  "\n\nSTUDENT QUESTION: "

/-- The template text after `{query}`: the formatting rules. -/
def promptRules : String :=
  "\n\nIMPORTANT FORMATTING RULES:\n- DO NOT use markdown syntax like ** or * for bold/italic\n- ABSOLUTELY NO numbered lists like \"1. 2. 3.\" or \"Step 1, Step 2\"\n- ABSOLUTELY NO bullet points with \"-\" or \"•\"\n- Write in natural, flowing conversation style with full sentences\n- Connect thoughts with phrases like \"Let me explain\", \"Here\x27s how it works\", \"Now\"\n- Use plain text with clear spacing\n- Create clean ASCII diagrams for formulas and geometry\n- Use clear mathematical notation\n- Be encouraging and friendly\n\nFORMAT FOR MATH CONCEPTS:\n\nFor formulas, show them simply like:\n\nThe formula is: a² + b² = c²\n\nFor triangles or geometry, use clean ASCII art:\n\n     /\\\n    /  \\\n   /    \\   c\n  /______\\ \n    a      b\n\nRESPONSE STRUCTURE (NATURAL CONVERSATION):\nStart with a brief, direct answer. Then explain the concept naturally using textbook content when available. Include visual representation using ASCII art for geometric concepts. Provide a simple step-by-step example. End with brief encouragement.\n\nWrite as if you\x27re talking to a student face-to-face. Use full sentences in natural paragraphs. Absolutely no numbered lists, no bullets, no markdown formatting."

/-- `GeminiRAGService._construct_enhanced_prompt(query, context_chunks)`:
deduplicated context joined into the f-string template. -/
def construct_enhanced_prompt (query : List Char)
    (context_chunks : List (List Char)) : List Char :=
  promptHeader.toList ++ contextBlock context_chunks
    ++ promptQuestionLabel.toList ++ query ++ promptRules.toList

/-- Errors surfaced by `generate_response`: re-raised `ValidationError`
or a `RAGError` (the `VectorDBError` path belongs to the external
search, which the model receives already-completed as `ms`). -/
inductive PipelineError where
  | validation (msg : String)
  | rag (msg : String)
deriving DecidableEq

/-- `GeminiRAGService.generate_response(query)` with the two external
collaborators explicit: `ms` is the Pinecone response (text/score
matches) and `call prompt attempt` the Gemini model's answer for the
given prompt at the given attempt.  Returns the result plus the number
of model invocations made.  The `fellThrough` branch (`max_retries = 0`,
impossible here) mirrors the `None` return that the enclosing `except`
would wrap into a `RAGError`. -/
def generate_response (ms : List (String × ℚ))
    (call : List Char → Nat → Except String String)
    (query : List Char) : Except PipelineError String × Nat :=
  match validate_input query with
  | .error m => (.error (.validation m), 0)
  | .ok _ =>
      if (get_relevant_context ms).1.isEmpty then (.ok noInfoMessage, 0)
      else
        let r := call_gemini_with_retry
          (call (construct_enhanced_prompt query
            ((get_relevant_context ms).1.map String.toList))) 3
        match r.outcome with
        | .success t => (.ok (String.mk (sanitize_response t.toList)), r.attempts)
        | .failure e => (.error (.rag e), r.attempts)
        | .fellThrough => (.error (.rag "no response"), r.attempts)

/-- C3: for every query passing validation whose retrieval yields no
surviving context passage, `generate_response` returns the fixed
"no relevant information" message as a successful result and performs
zero model invocations. -/
theorem c3_empty_context_short_circuit (ms : List (String × ℚ))
    (call : List Char → Nat → Except String String) (query : List Char)
    (hval : validate_input query = .ok ())
    (hempty : (get_relevant_context ms).1 = []) :
    generate_response ms call query = (.ok noInfoMessage, 0) := by
  have hE : (get_relevant_context ms).1.isEmpty = true := by
    rw [hempty]
    rfl
  unfold generate_response
  rw [hval]
  dsimp only
  rw [hE]
  simp

/-- Witness for C3: a valid query with an empty Pinecone result. -/
theorem c3_empty_context_short_circuit_witness :
    generate_response [] (fun _ _ => .error "never called") "hello".toList
      = (.ok noInfoMessage, 0) :=
  c3_empty_context_short_circuit [] (fun _ _ => .error "never called")
    "hello".toList rfl rfl
